import Mathlib

/-!
Verification model of `opal_server/redis_utils.py` (class `RedisDB`).

The Python source is shallowly embedded: each method becomes an executable
Lean function over explicit state / scripted collaborator outcomes.  External
collaborators (the redis client library, `urllib.parse`, `ssl`) are modelled
at the interface boundary described in the design document, with doc comments
marking exactly what is modelled.
-/

/-- Exception classes thrown around `RedisDB`.  `connectionError`,
`timeoutError` and `osError` are the connection-level classes named in the
`except (redis.ConnectionError, redis.TimeoutError, OSError)` clauses of the
source; `appError` stands for any application-level error (wrong type,
malformed value); `configError` stands for a fatal configuration-class error
such as an `ssl` failure while loading TLS material. -/
inductive PyErr where
  | connectionError
  | timeoutError
  | osError
  | appError
  | configError
  deriving DecidableEq, Repr

/-- Membership in the tuple `(redis.ConnectionError, redis.TimeoutError,
OSError)` used by every single-key operation's `except` clause
(`redis_utils.py` lines 263, 274, 281, 296, 312). -/
def isCaughtByRetry : PyErr → Bool
  | .connectionError => true
  | .timeoutError => true
  | .osError => true
  | .appError => false
  | .configError => false

/-- Scripted outcomes for one single-key facade operation: the result of the
first underlying client call, the outcome of `_reconnect()` if it is invoked,
and the result of the retried client call. -/
structure OpScript (α : Type) where
  attempt1 : Except PyErr α
  reconnect : Except PyErr Unit
  attempt2 : Except PyErr α

/-- Result of a facade operation: what the caller sees, plus whether
`_reconnect` was invoked. -/
structure OpResult (α : Type) where
  result : Except PyErr α
  reconnectInvoked : Bool

namespace RedisDB

/-- Shared control flow of the four single-key methods (`set`,
`set_if_not_exists`, `get`, `delete`, `redis_utils.py` lines 260-283 and
309-314): try the client call; on `ConnectionError`/`TimeoutError`/`OSError`
run `_reconnect()` and retry once, returning the retry's result; any other
error, and any error of the retry or of `_reconnect` itself, propagates. -/
def tryWithRetry {α : Type} (s : OpScript α) : OpResult α :=
  match s.attempt1 with
  | .ok v => ⟨.ok v, false⟩
  | .error e =>
    if isCaughtByRetry e then
      match s.reconnect with
      | .ok _ => ⟨s.attempt2, true⟩
      | .error re => ⟨.error re, true⟩
    else ⟨.error e, false⟩

/-- `RedisDB.set` (lines 260-265): first attempt, reconnect-and-retry on a
connection-level error.  The underlying `self._redis.set` call returns no
value. -/
def set (s : OpScript Unit) : OpResult Unit := tryWithRetry s

/-- `RedisDB.set_if_not_exists` (lines 267-276): same pattern; the underlying
`self._redis.set(key, value, nx=True)` reports whether the write occurred. -/
def set_if_not_exists (s : OpScript Bool) : OpResult Bool := tryWithRetry s

/-- `RedisDB.get` (lines 278-283): same pattern; the client call returns the
stored bytes or an absent indicator. -/
def get (s : OpScript (Option (List Char))) : OpResult (Option (List Char)) :=
  tryWithRetry s

/-- `RedisDB.delete` (lines 309-314): same pattern; no value returned. -/
def delete (s : OpScript Unit) : OpResult Unit := tryWithRetry s

end RedisDB

/-- The behaviour claimed for each single-key operation: a success passes
through with no reconnection; a connection-level first failure triggers
`_reconnect` and exactly one retry whose result (success or failure) is
returned unmodified; an application-level first failure surfaces immediately
with no reconnection; a failure of `_reconnect` itself propagates. -/
def retryContractFor {α : Type} (op : OpScript α → OpResult α) : Prop :=
  (∀ s : OpScript α, ∀ v, s.attempt1 = .ok v → op s = ⟨.ok v, false⟩) ∧
  (∀ s : OpScript α, ∀ e, s.attempt1 = .error e → isCaughtByRetry e = true →
      s.reconnect = .ok () → op s = ⟨s.attempt2, true⟩) ∧
  (∀ s : OpScript α, ∀ e, s.attempt1 = .error e → isCaughtByRetry e = false →
      op s = ⟨.error e, false⟩) ∧
  (∀ s : OpScript α, ∀ e re, s.attempt1 = .error e → isCaughtByRetry e = true →
      s.reconnect = .error re → op s = ⟨.error re, true⟩)

/-! ## Store collaborator model and `set_if_not_exists` semantics -/

/-- A redis key space: an association list from keys to stored byte strings,
most recent binding first. -/
def Store : Type := List (List Char × List Char)

/-- Modelled from the spec: the underlying store client's read,
`get(key) -> bytes|absent` (collaborator interface of the design document).
Returns the stored bytes of the first binding for the key, or `none`. -/
def redisGet (st : Store) (k : List Char) : Option (List Char) :=
  match st with
  | [] => none
  | (k2, v) :: rest => if k2 = k then some v else redisGet rest k

/-- Modelled from the spec: the underlying store client's conditional write,
redis `SET key value NX` as used by `set_if_not_exists`: write only if the
key does not already exist, reporting whether the write occurred. -/
def redisSetNX (st : Store) (k v : List Char) : Store × Bool :=
  match redisGet st k with
  | some _ => (st, false)
  | none => ((k, v) :: st, true)

/-- A pydantic `BaseModel` value, reduced to the one capability the facade
uses: producing its JSON byte string. -/
structure PModel where
  json : List Char

/-- `RedisDB._serialize` (lines 322-323): `value.json()`. -/
def _serialize (value : PModel) : List Char := value.json

/-- The failure-free path of `RedisDB.set_if_not_exists` acting on a store:
the single underlying call `self._redis.set(key, self._serialize(value),
nx=True)` (line 273) evaluated against the store semantics. -/
def set_if_not_exists_on (st : Store) (k : List Char) (v : PModel) : Store × Bool :=
  redisSetNX st k (_serialize v)

/-! ## The reconnection coordinator `_reconnect` -/

/-- `backoff_interval = 2` (line 180): backoff grows by 2 seconds per failed
attempt. -/
def backoff_interval : Nat := 2

/-- `max_backoff = 10` (line 179): backoff is capped at 10 seconds. -/
def max_backoff : Nat := 10

/-- The backoff computed after failed attempt number `attempt` (line 238):
`min(backoff_interval * attempt, max_backoff)`. -/
def currentBackoff (attempt : Nat) : Nat :=
  min (backoff_interval * attempt) max_backoff

/-- `await asyncio.sleep(0.1)` on the deferred path (line 175), in
time-units. -/
def deferredDelay : ℚ := 1 / 10

/-- How one `_reconnect` invocation ended.  `running` truncates the unbounded
`while True:` loop when the supplied script runs out: the episode is still
in progress at that point. -/
inductive ReconnectOutcome where
  | success
  | raised (e : PyErr)
  | running
  deriving DecidableEq, Repr

/-- Observable trace of one `_reconnect` invocation: its outcome, the
arguments of its `asyncio.sleep` calls in order, how many times the loop
body performed the resolve-and-probe work (`master_for`/`_init_standard`
followed by `ping`), and the value of `self._reconnecting` afterwards. -/
structure ReconnectTrace where
  outcome : ReconnectOutcome
  delays : List ℚ
  resolveAttempts : Nat
  flagAfter : Bool
  deriving DecidableEq, Repr

/-- Scripted outcomes driving one `_reconnect` invocation: `body n`
enumerates the results of each iteration of the resolve-and-probe block
(lines 187-234; `.ok` means the fresh connection's `ping` succeeded, `.error
e` means the iteration raised `e`), and `sleeps n` the results of each
backoff `asyncio.sleep` call (line 245). -/
structure ReconnectScript where
  body : List (Except PyErr Unit)
  sleeps : List (Except PyErr Unit)

/-- The `while True:` loop of `_reconnect` (lines 186-245).  Each iteration
runs the resolve-and-probe block inside `try:`; `break` on success; on any
`Exception` the attempt counter is incremented, the capped backoff is slept,
and the loop repeats.  An exception raised by the sleep itself is outside
the inner `try` and so escapes the loop. -/
def reconnectLoop : List (Except PyErr Unit) → List (Except PyErr Unit) →
    Nat → ReconnectOutcome × List ℚ × Nat
  | [], _, _ => (.running, [], 0)
  | .ok _ :: _, _, _ => (.success, [], 1)
  | .error _ :: _, [], attempt =>
    (.running, [((currentBackoff (attempt + 1) : Nat) : ℚ)], 1)
  | .error _ :: _, .error se :: _, attempt =>
    (.raised se, [((currentBackoff (attempt + 1) : Nat) : ℚ)], 1)
  | .error _ :: bodyRest, .ok _ :: sleepRest, attempt =>
    let t := reconnectLoop bodyRest sleepRest (attempt + 1)
    (t.1, ((currentBackoff (attempt + 1) : Nat) : ℚ) :: t.2.1, 1 + t.2.2)

namespace RedisDB

/-- `RedisDB._reconnect` (lines 164-254).  If `self._reconnecting` is
already set, sleep `0.1` and return without touching the flag (lines
173-176).  Otherwise set the flag, run the retry loop, and — exactly as the
`finally:` block does (lines 253-254) — clear the flag on every exit path,
successful or raising; when the script truncates the still-running loop the
flag is still set. -/
def _reconnect (reconnecting : Bool) (script : ReconnectScript) : ReconnectTrace :=
  if reconnecting then
    ⟨.success, [deferredDelay], 0, reconnecting⟩
  else
    let t := reconnectLoop script.body script.sleeps 0
    match t.1 with
    | .running => ⟨.running, t.2.1, t.2.2, true⟩
    | o => ⟨o, t.2.1, t.2.2, false⟩

end RedisDB

/-! ## Interleaving model of concurrent `_reconnect` callers

Under asyncio's cooperative scheduling, control can only change hands at an
`await`.  The check `if self._reconnecting:` (line 173) and the assignment
`self._reconnecting = True` (line 178) have no `await` between them, so they
form one atomic step; every loop iteration and the deferred sleep contain
`await`s, so other tasks may run between them. -/

/-- Program counter of one task calling `_reconnect`. -/
inductive TaskPC where
  | entry
  | inEpisode
  | finishing
  | deferredWait
  | done
  deriving DecidableEq, Repr

/-- The critical region: program points at which a task holds the
`_reconnecting` flag and may touch `self._redis`. -/
def inCR : TaskPC → Bool
  | .inEpisode => true
  | .finishing => true
  | _ => false

/-- Shared state of one `RedisDB` instance plus the program counters of two
concurrent tasks that both detected a failure and call `_reconnect`.
`resolveCount` counts executed resolve-and-probe iterations. -/
structure SysState where
  reconnecting : Bool
  resolveCount : Nat
  pc1 : TaskPC
  pc2 : TaskPC
  deriving DecidableEq, Repr

/-- One atomic step of a task.  `entry`: the atomic check-and-set of lines
173-178 — if the flag is up the task defers, otherwise it takes the flag and
starts the episode.  `inEpisode`: one resolve-and-probe loop iteration;
`stay` selects whether another iteration follows (a failure) or the episode
body completes.  `finishing`: the `finally:` clause clears the flag.
`deferredWait`: the `asyncio.sleep(0.1)` finishes and the task returns. -/
def taskNext (flag : Bool) (n : Nat) (pc : TaskPC) (stay : Bool) :
    Bool × Nat × TaskPC :=
  match pc with
  | .entry => if flag then (flag, n, .deferredWait) else (true, n, .inEpisode)
  | .inEpisode => (flag, n + 1, if stay then .inEpisode else .finishing)
  | .finishing => (false, n, .done)
  | .deferredWait => (flag, n, .done)
  | .done => (flag, n, .done)

/-- Scheduler step: `who` picks which task runs its next atomic step. -/
def sysNext (s : SysState) (who stay : Bool) : SysState :=
  if who then
    let t := taskNext s.reconnecting s.resolveCount s.pc1 stay
    ⟨t.1, t.2.1, t.2.2, s.pc2⟩
  else
    let t := taskNext s.reconnecting s.resolveCount s.pc2 stay
    ⟨t.1, t.2.1, s.pc1, t.2.2⟩

/-- Both tasks about to call `_reconnect` on an idle instance. -/
def sysInit : SysState := ⟨false, 0, .entry, .entry⟩

/-- Execution under an arbitrary finite schedule. -/
def sysRun (choices : List (Bool × Bool)) : SysState :=
  choices.foldl (fun s c => sysNext s c.1 c.2) sysInit

/-- The mutual-exclusion invariant: the flag is up exactly when some task is
in the critical region, and the two tasks are never both inside. -/
def MutexInv (s : SysState) : Prop :=
  s.reconnecting = (inCR s.pc1 || inCR s.pc2) ∧
  (inCR s.pc1 && inCR s.pc2) = false

/-! ## The `scan` operation -/

/-- How one pass of the scan loop ended: ran to cursor 0, raised an error,
or the supplied script ran out of answers. -/
inductive PassEnd where
  | completed
  | errored (e : PyErr)
  | starved
  deriving DecidableEq, Repr

/-- Scripted behaviour of the live connection during one scan pass: answers
to successive `self._redis.scan(cur, match=pattern)` calls (a fresh cursor
plus a page of keys, or an exception) and to successive `self._redis.get`
calls. -/
structure ClientScript where
  scans : List (Except PyErr (Nat × List (List Char)))
  gets : List (Except PyErr (List Char))

/-- The inner `for key in keys:` loop (lines 293-295): fetch each key's
value and yield it.  Returns the values yielded, the unconsumed `get`
answers, and the failure that interrupted the loop, if any. -/
def getKeysLoop : List (List Char) → List (Except PyErr (List Char)) →
    List (List Char) × List (Except PyErr (List Char)) × Option (Option PyErr)
  | [], gets => ([], gets, none)
  | _ :: _, [] => ([], [], some none)
  | _ :: _, .error e :: grest => ([], grest, some (some e))
  | _ :: krest, .ok v :: grest =>
    let t := getKeysLoop krest grest
    (v :: t.1, t.2.1, t.2.2)

/-- One pass of the cursor loop `while first_iteration or cur != 0:`
(lines 289-295 and again 301-307): fetch a page, yield the value of every
key on it, continue until the cursor returns to 0. -/
def scanPass : List (Except PyErr (Nat × List (List Char))) →
    List (Except PyErr (List Char)) → Nat → Bool → List (List Char) × PassEnd
  | scans, gets, cur, firstIteration =>
    if ¬ firstIteration ∧ cur = 0 then ([], .completed)
    else
      match scans with
      | [] => ([], .starved)
      | .error e :: _ => ([], .errored e)
      | .ok (ncur, keys) :: srest =>
        let g := getKeysLoop keys gets
        match g.2.2 with
        | some (some e) => (g.1, .errored e)
        | some none => (g.1, .starved)
        | none =>
          let t := scanPass srest g.2.1 ncur false
          (g.1 ++ t.1, t.2)

/-- Scripted world for one `scan` call: the connection's behaviour before
the failure, the outcome of `_reconnect`, and the behaviour of the (possibly
newly resolved) connection afterwards. -/
structure ScanScript where
  pass1 : ClientScript
  reconnect : Except PyErr Unit
  pass2 : ClientScript

namespace RedisDB

/-- `RedisDB.scan` (lines 285-307): run the cursor loop from cursor 0; if it
raises `ConnectionError`/`TimeoutError`/`OSError`, run `_reconnect()` and
rerun the whole loop from cursor 0 against the current connection; values
yielded before the failure have already been handed to the consumer, so the
overall yield sequence is the first pass's partial output followed by the
second pass's output.  The second pass has no handler.  Returns the yielded
values, how the call ended, and whether `_reconnect` was invoked. -/
def scan (s : ScanScript) : List (List Char) × PassEnd × Bool :=
  let p1 := scanPass s.pass1.scans s.pass1.gets 0 true
  match p1.2 with
  | .completed => (p1.1, .completed, false)
  | .starved => (p1.1, .starved, false)
  | .errored e =>
    if isCaughtByRetry e then
      match s.reconnect with
      | .error re => (p1.1, .errored re, true)
      | .ok _ =>
        let p2 := scanPass s.pass2.scans s.pass2.gets 0 true
        (p1.1 ++ p2.1, p2.2, true)
    else (p1.1, .errored e, false)

end RedisDB

/-! ## Character-list machinery mirroring Python string operations -/

/-- `hay.startswith(needle)`. -/
def startsWithB : List Char → List Char → Bool
  | [], _ => true
  | _ :: _, [] => false
  | a :: as, b :: bs => a = b && startsWithB as bs

/-- Python's substring test `needle in hay`. -/
def occursB (needle : List Char) : List Char → Bool
  | [] => needle.isEmpty
  | c :: rest => startsWithB needle (c :: rest) || occursB needle rest

/-- Everything before the first occurrence of `needle` (the whole list when
there is none): `hay.split(needle)[0]`. -/
def takeBefore (needle : List Char) : List Char → List Char
  | [] => []
  | c :: rest =>
    if startsWithB needle (c :: rest) then [] else c :: takeBefore needle rest

/-- Python's `hay.replace(needle, repl)`, replacing every non-overlapping
occurrence left to right; fuelled so that it is structurally recursive. -/
def replaceAllF (needle repl : List Char) : Nat → List Char → List Char
  | 0, l => l
  | _ + 1, [] => []
  | fuel + 1, c :: rest =>
    if !needle.isEmpty && startsWithB needle (c :: rest) then
      repl ++ replaceAllF needle repl fuel ((c :: rest).drop needle.length)
    else c :: replaceAllF needle repl fuel rest

/-- `hay.replace(needle, repl)`: one unit of fuel per character suffices. -/
def replaceAll (needle repl l : List Char) : List Char :=
  replaceAllF needle repl l.length l

/-- Split at the first occurrence of a character, the separator removed:
Python's `hay.partition(sep)` restricted to the two outer parts. -/
def firstSplitChar (sep : Char) : List Char → Option (List Char × List Char)
  | [] => none
  | c :: rest =>
    if c = sep then some ([], rest)
    else
      match firstSplitChar sep rest with
      | none => none
      | some (a, b) => some (c :: a, b)

/-- Split at the last occurrence of a character: Python's
`hay.rpartition(sep)` / `hay.rsplit(sep, 1)` restricted to the two parts. -/
def lastSplitChar (sep : Char) (l : List Char) : Option (List Char × List Char) :=
  match firstSplitChar sep l.reverse with
  | none => none
  | some (a, b) => some (b.reverse, a.reverse)

/-- `hay.split(sep)` for a one-character separator: always returns one more
group than there are separators, groups may be empty. -/
def splitOnChar (sep : Char) : List Char → List (List Char)
  | [] => [[]]
  | c :: rest =>
    if c = sep then [] :: splitOnChar sep rest
    else
      match splitOnChar sep rest with
      | [] => [[c]]
      | g :: gs => (c :: g) :: gs

/-- Modelled from the spec / Python `int()`: parse of a nonnegative decimal
numeral; anything else fails (Python raises `ValueError`). -/
def pyInt (l : List Char) : Option Nat :=
  if l ≠ [] ∧ l.all (fun c => c.isDigit) then
    some (l.foldl (fun acc c => acc * 10 + (c.toNat - 48)) 0)
  else none

/-! ## `urllib.parse` collaborator model -/

/-- The components of a parsed URL that `redis_utils.py` consumes. -/
structure UrlParts where
  scheme : List Char
  netloc : List Char
  path : List Char
  query : List Char
  deriving DecidableEq, Repr

/-- Modelled from the spec: `urllib.parse.urlparse`, restricted to inputs
without fragments (`#`) and with an ordinary `scheme://` head, which covers
every connection string this module handles.  The scheme is the part before
the first `:`; after `//` the netloc runs to the next `/`, `?` or `#`; the
path runs to the next `?`; the query is the remainder. -/
def urlparse (url : List Char) : UrlParts :=
  match firstSplitChar ':' url with
  | none =>
    match firstSplitChar '?' url with
    | none => ⟨[], [], url, []⟩
    | some (p, q) => ⟨[], [], p, q⟩
  | some (sch, rest) =>
    if startsWithB "//".toList rest then
      let afterSlashes := rest.drop 2
      let netloc := afterSlashes.takeWhile (fun c => ¬ (c = '/' ∨ c = '?' ∨ c = '#'))
      let after := afterSlashes.dropWhile (fun c => ¬ (c = '/' ∨ c = '?' ∨ c = '#'))
      match firstSplitChar '?' after with
      | none => ⟨sch, netloc, after, []⟩
      | some (p, q) => ⟨sch, netloc, p, q⟩
    else
      match firstSplitChar '?' rest with
      | none => ⟨sch, [], rest, []⟩
      | some (p, q) => ⟨sch, [], p, q⟩

/-- Modelled from the spec: `ParseResult.geturl()` via `urlunparse`, for
parses that carried a netloc: `scheme://netloc path [?query]`. -/
def geturl (p : UrlParts) : List Char :=
  p.scheme ++ "://".toList ++ p.netloc ++ p.path ++
    (if p.query = [] then [] else '?' :: p.query)

/-- Modelled from the spec: `ParseResult.password` — the netloc is split at
its last `@`; the user-info part before it is split at its first `:`; the
remainder is the password (`none` when either separator is absent). -/
def netlocPassword (netloc : List Char) : Option (List Char) :=
  match lastSplitChar '@' netloc with
  | none => none
  | some (userinfo, _) =>
    match firstSplitChar ':' userinfo with
    | none => none
    | some (_, pw) => some pw

namespace RedisDB

/-- `RedisDB._mask_password` (lines 151-162).  If the parsed URL has a
non-empty netloc password, replace `:password@` with `:****@` inside the
netloc and reassemble the URL; otherwise, if `"password="` occurs in the
raw string, keep the part before its first occurrence and append
`password=****`; otherwise return the string unchanged. -/
def _mask_password (url : List Char) : List Char :=
  let p := urlparse url
  let netlocBranch :=
    match netlocPassword p.netloc with
    | some pw =>
      if pw ≠ [] then
        some (geturl ⟨p.scheme,
          replaceAll (':' :: pw ++ ['@']) ":****@".toList p.netloc,
          p.path, p.query⟩)
      else none
    | none => none
  match netlocBranch with
  | some r => r
  | none =>
    if occursB "password=".toList url then
      takeBefore "password=".toList url ++ "password=****".toList
    else url

/-- Loop body of `RedisDB._parse_sentinel_hosts` (lines 122-127): an entry
containing `:` is split at its last `:` into host and integer port (`none`
models the `ValueError` Python raises on a non-numeric port); an entry
without `:` gets the default Sentinel port 26379. -/
def parseHostPort (hostPort : List Char) : Option (List Char × Nat) :=
  if hostPort.contains ':' then
    match lastSplitChar ':' hostPort with
    | some (host, port) =>
      match pyInt port with
      | some n => some (host, n)
      | none => none
    | none => none
  else some (hostPort, 26379)

/-- `RedisDB._parse_sentinel_hosts` (lines 116-128): split the authority at
commas and parse each `host[:port]` entry. -/
def _parse_sentinel_hosts (netloc : List Char) : Option (List (List Char × Nat)) :=
  (splitOnChar ',' netloc).mapM parseHostPort

/-- Service-name selection in `_init_sentinel` (line 65):
`parsed.path.lstrip("/") if parsed.path else "mymaster"`. -/
def serviceName (path : List Char) : List Char :=
  if path = [] then "mymaster".toList else path.dropWhile (fun c => c = '/')

end RedisDB

/-! ## `ssl` collaborator model and `_create_ssl_context` -/

/-- `ssl` certificate-verification modes. -/
inductive VerifyMode where
  | CERT_NONE
  | CERT_OPTIONAL
  | CERT_REQUIRED
  deriving DecidableEq, Repr

/-- The observable part of an `ssl.SSLContext`: hostname checking,
verification mode, and which CA bundle has been loaded into it. -/
structure SSLContext where
  check_hostname : Bool
  verify_mode : VerifyMode
  loaded_ca : Option (List Char)
  deriving DecidableEq, Repr

/-- Modelled from the spec: `ssl.create_default_context()` yields a context
with hostname checking enabled and verification required, no extra CA
loaded. -/
def create_default_context : SSLContext :=
  ⟨true, .CERT_REQUIRED, none⟩

namespace RedisDB

/-- `RedisDB._create_ssl_context` (lines 130-149): start from the default
context; `"none"` disables hostname checking and sets `CERT_NONE`;
`"optional"` sets `CERT_OPTIONAL`; anything else — `"required"` is the
declared default — sets `CERT_REQUIRED`; finally the CA bundle is loaded
when a path is provided. -/
def _create_ssl_context (ssl_cert_reqs : List Char)
    (ssl_ca_certs : Option (List Char)) : SSLContext :=
  let c0 := create_default_context
  let c1 :=
    if ssl_cert_reqs = "none".toList then
      ⟨false, .CERT_NONE, c0.loaded_ca⟩
    else if ssl_cert_reqs = "optional".toList then
      ⟨c0.check_hostname, .CERT_OPTIONAL, c0.loaded_ca⟩
    else
      ⟨c0.check_hostname, .CERT_REQUIRED, c0.loaded_ca⟩
  match ssl_ca_certs with
  | some ca => ⟨c1.check_hostname, c1.verify_mode, some ca⟩
  | none => c1

end RedisDB

/-! # Helper lemmas -/

theorem tryWithRetry_contract {α : Type} : retryContractFor (RedisDB.tryWithRetry (α := α)) := by
  refine ⟨?_, ?_, ?_, ?_⟩
  · intro s v h
    simp [RedisDB.tryWithRetry, h]
  · intro s e h hc hr
    simp [RedisDB.tryWithRetry, h, hc, hr]
  · intro s e h hc
    simp [RedisDB.tryWithRetry, h, hc]
  · intro s e re h hc hr
    simp [RedisDB.tryWithRetry, h, hc, hr]


theorem redisGet_setNX_present (st : Store) (k v w : List Char)
    (h : redisGet st k = some w) :
    (redisSetNX st k v).2 = false ∧ (redisSetNX st k v).1 = st := by
  simp [redisSetNX, h]

theorem redisGet_setNX_absent (st : Store) (k v : List Char)
    (h : redisGet st k = none) :
    (redisSetNX st k v).2 = true ∧ redisGet (redisSetNX st k v).1 k = some v := by
  simp [redisSetNX, redisGet, h]


/-- Running the retry loop against any finite sequence of failing iterations
followed by one success: every listed error — whatever its class — is caught
and retried; the loop succeeds after one sleep per failure, the n-th sleep
lasting `min(2 * n, 10)` time-units. -/
theorem reconnectLoop_errors (es : List PyErr) :
    ∀ a : Nat,
      reconnectLoop (es.map Except.error ++ [Except.ok ()])
        (List.replicate es.length (Except.ok ())) a =
      (.success,
        (List.range es.length).map
          (fun i => ((currentBackoff (a + i + 1) : Nat) : ℚ)),
        es.length + 1) := by
  induction es with
  | nil => intro a; rfl
  | cons e rest ih =>
    intro a
    simp only [List.map_cons, List.cons_append, List.length_cons,
      List.replicate_succ, reconnectLoop, List.append_eq]
    rw [ih (a + 1)]
    have hmap :
        List.map (fun i => ((currentBackoff (a + i + 1) : Nat) : ℚ))
          (List.range (rest.length + 1)) =
        ((currentBackoff (a + 1) : Nat) : ℚ) ::
          List.map (fun i => ((currentBackoff (a + 1 + i + 1) : Nat) : ℚ))
            (List.range rest.length) := by
      simp only [List.range_succ_eq_map, List.map_cons, List.map_map]
      refine congrArg₂ List.cons (by norm_num) ?_
      refine List.map_congr_left ?_
      intro i _
      simp only [Function.comp]
      congr 2
      omega
    rw [hmap, show 1 + (rest.length + 1) = rest.length + 1 + 1 from by omega]

theorem startsWithB_append (p t : List Char) : startsWithB p (p ++ t) = true := by
  induction p with
  | nil => rfl
  | cons c rest ih => simp [startsWithB, ih]

theorem startsWithB_mem (n : List Char) :
    ∀ l : List Char, startsWithB n l = true → ∀ c, c ∈ n → c ∈ l := by
  induction n with
  | nil => intro l _ c hc; cases hc
  | cons a as ih =>
    intro l h c hc
    cases l with
    | nil => cases h
    | cons b bs =>
      simp only [startsWithB, Bool.and_eq_true, decide_eq_true_eq] at h
      cases hc with
      | head => simp [h.1]
      | tail _ hmem => exact List.mem_cons_of_mem b (ih bs h.2 c hmem)

theorem firstSplitChar_append (sep : Char) (a b : List Char)
    (h : ∀ c ∈ a, c ≠ sep) :
    firstSplitChar sep (a ++ sep :: b) = some (a, b) := by
  induction a with
  | nil => simp [firstSplitChar]
  | cons c rest ih =>
    have hc : c ≠ sep := h c (List.mem_cons_self c rest)
    have hrest : ∀ x ∈ rest, x ≠ sep := fun x hx => h x (List.mem_cons_of_mem c hx)
    simp [firstSplitChar, hc, ih hrest]

theorem takeWhile_middle (p : Char → Bool) (a : List Char) (q : Char)
    (b : List Char) (ha : ∀ c ∈ a, p c = true) (hq : p q = false) :
    (a ++ q :: b).takeWhile p = a := by
  induction a with
  | nil => simp [List.takeWhile, hq]
  | cons c rest ih =>
    have hc : p c = true := ha c (List.mem_cons_self c rest)
    have hrest : ∀ x ∈ rest, p x = true := fun x hx => ha x (List.mem_cons_of_mem c hx)
    simp [List.takeWhile, hc, ih hrest]

theorem dropWhile_middle (p : Char → Bool) (a : List Char) (q : Char)
    (b : List Char) (ha : ∀ c ∈ a, p c = true) (hq : p q = false) :
    (a ++ q :: b).dropWhile p = q :: b := by
  induction a with
  | nil => simp [List.dropWhile, hq]
  | cons c rest ih =>
    have hc : p c = true := ha c (List.mem_cons_self c rest)
    have hrest : ∀ x ∈ rest, p x = true := fun x hx => ha x (List.mem_cons_of_mem c hx)
    simp [List.dropWhile, hc, ih hrest]

theorem lastSplitChar_append (sep : Char) (a b : List Char)
    (h : ∀ c ∈ b, c ≠ sep) :
    lastSplitChar sep (a ++ sep :: b) = some (a, b) := by
  have hrev : (a ++ sep :: b).reverse = b.reverse ++ sep :: a.reverse := by
    simp [List.reverse_append]
  have hb : ∀ c ∈ b.reverse, c ≠ sep := fun c hc => h c (List.mem_reverse.mp hc)
  simp [lastSplitChar, hrev, firstSplitChar_append sep _ _ hb]

theorem occursB_nil (l : List Char) : occursB [] l = true := by
  cases l with
  | nil => rfl
  | cons c rest => simp [occursB, startsWithB]

theorem occursB_append (n pre t : List Char) :
    occursB n (pre ++ n ++ t) = true := by
  induction pre with
  | nil =>
    cases n with
    | nil => simpa using occursB_nil t
    | cons x xs =>
      simp only [List.nil_append, List.cons_append, occursB, Bool.or_eq_true]
      left
      have := startsWithB_append (x :: xs) t
      simpa using this
  | cons c rest ih =>
    simp only [List.cons_append, occursB, Bool.or_eq_true]
    right
    simpa using ih

theorem takeBefore_append (n rest : List Char) (hn : n ≠ []) :
    ∀ pre : List Char,
      (∀ i : Fin pre.length, startsWithB n ((pre ++ n ++ rest).drop i.val) = false) →
      takeBefore n (pre ++ n ++ rest) = pre := by
  intro pre
  induction pre with
  | nil =>
    intro _
    have hsw : startsWithB n (n ++ rest) = true := startsWithB_append n rest
    cases hcase : n ++ rest with
    | nil =>
      cases n with
      | nil => exact absurd rfl hn
      | cons x xs => simp at hcase
    | cons c cs =>
      rw [hcase] at hsw
      simp only [List.nil_append]
      rw [hcase]
      simp [takeBefore, hsw]
  | cons c cs ih =>
    intro h
    have h0 : startsWithB n (c :: (cs ++ (n ++ rest))) = false := by
      have := h ⟨0, by simp⟩
      simpa [List.append_assoc] using this
    have htail : ∀ i : Fin cs.length,
        startsWithB n ((cs ++ n ++ rest).drop i.val) = false := by
      intro i
      have := h ⟨i.val + 1, Nat.succ_lt_succ i.isLt⟩
      simpa using this
    have ihr := ih htail
    simp only [List.append_assoc] at ihr
    simp only [List.cons_append, List.append_assoc, takeBefore, List.append_eq]
    rw [h0]
    simp [ihr]

theorem replaceAllF_fuel (n r : List Char) (hn : n ≠ []) :
    ∀ f1 : Nat, ∀ l f2, l.length ≤ f1 → l.length ≤ f2 →
      replaceAllF n r f1 l = replaceAllF n r f2 l := by
  intro f1
  induction f1 with
  | zero =>
    intro l f2 h1 _
    have : l = [] := List.eq_nil_of_length_eq_zero (Nat.le_zero.mp h1)
    subst this
    cases f2 with
    | zero => rfl
    | succ f => rfl
  | succ f ih =>
    intro l f2 h1 h2
    cases l with
    | nil =>
      cases f2 with
      | zero => rfl
      | succ g => rfl
    | cons c rest =>
      cases f2 with
      | zero => simp at h2
      | succ g =>
        have h1' : rest.length + 1 ≤ f + 1 := by simpa using h1
        have h2' : rest.length + 1 ≤ g + 1 := by simpa using h2
        have hnlen : 1 ≤ n.length := List.length_pos.mpr hn
        simp only [replaceAllF]
        cases hg : !n.isEmpty && startsWithB n (c :: rest) with
        | false =>
          simp only [hg, Bool.false_eq_true, if_neg, Bool.not_eq_true]
          have := ih rest g (by omega) (by omega)
          simp [this]
        | true =>
          simp only [hg, if_pos]
          have hlen : ((c :: rest).drop n.length).length ≤ f := by
            simp only [List.length_drop, List.length_cons]
            omega
          have hlen2 : ((c :: rest).drop n.length).length ≤ g := by
            simp only [List.length_drop, List.length_cons]
            omega
          have := ih ((c :: rest).drop n.length) g hlen hlen2
          simp [this]

theorem replaceAllF_absent (n r : List Char) (ch : Char) (hch : ch ∈ n) :
    ∀ fuel : Nat, ∀ l : List Char, l.length ≤ fuel → (∀ c ∈ l, c ≠ ch) →
      replaceAllF n r fuel l = l := by
  intro fuel
  induction fuel with
  | zero => intro l _ _; cases l <;> rfl
  | succ f ih =>
    intro l hlen habs
    cases l with
    | nil => rfl
    | cons c rest =>
      have hsw : startsWithB n (c :: rest) = false := by
        cases hx : startsWithB n (c :: rest) with
        | false => rfl
        | true =>
          have : ch ∈ c :: rest := startsWithB_mem n (c :: rest) hx ch hch
          exact absurd rfl (habs ch this)
      simp only [replaceAllF, hsw, Bool.and_false, Bool.false_eq_true, if_neg,
        Bool.not_eq_true]
      have := ih rest (by simpa using hlen)
        (fun x hx => habs x (List.mem_cons_of_mem c hx))
      simp [this]

theorem replaceAllF_exact (hd : Char) (ntail r host : List Char) (ch : Char)
    (hch : ch ∈ hd :: ntail) (hhost : ∀ c ∈ host, c ≠ ch) :
    ∀ u : List Char, ∀ fuel : Nat,
      (u ++ (hd :: ntail) ++ host).length ≤ fuel → (∀ c ∈ u, c ≠ hd) →
      replaceAllF (hd :: ntail) r fuel (u ++ (hd :: ntail) ++ host) =
        u ++ r ++ host := by
  intro u
  induction u with
  | nil =>
    intro fuel hlen _
    cases fuel with
    | zero => simp at hlen
    | succ f =>
      have hsw : startsWithB (hd :: ntail) (hd :: (ntail ++ host)) = true := by
        have := startsWithB_append (hd :: ntail) host
        simpa using this
      simp only [List.nil_append, List.cons_append, replaceAllF, List.append_eq]
      rw [hsw]
      simp only [List.isEmpty_cons, Bool.not_false, Bool.true_and, if_pos]
      have hdrop : (hd :: (ntail ++ host)).drop (hd :: ntail).length = host := by
        exact List.drop_left (hd :: ntail) host
      rw [hdrop]
      have hhl : host.length ≤ f := by
        simp only [List.cons_append, List.length_cons, List.length_append] at hlen
        omega
      rw [replaceAllF_absent (hd :: ntail) r ch hch f host hhl hhost]
  | cons c u' ih =>
    intro fuel hlen hu
    cases fuel with
    | zero => simp at hlen
    | succ f =>
      have hc : hd ≠ c := fun h => (hu c (List.mem_cons_self c u')) h.symm
      have hsw : startsWithB (hd :: ntail) (c :: (u' ++ (hd :: ntail) ++ host)) = false := by
        simp [startsWithB, hc]
      have hrec := ih f (by simpa using hlen)
        (fun x hx => hu x (List.mem_cons_of_mem c hx))
      simp only [List.cons_append, List.append_assoc, replaceAllF,
        List.append_eq] at hsw hrec ⊢
      rw [hsw]
      simp only [Bool.and_false, Bool.false_eq_true, if_neg, Bool.not_eq_true]
      simp [hrec]

theorem urlparse_netloc (scheme netloc query : List Char)
    (hs : ∀ c ∈ scheme, c ≠ ':')
    (hnl : ∀ c ∈ netloc, c ≠ '/' ∧ c ≠ '?' ∧ c ≠ '#') :
    urlparse (scheme ++ ':' :: '/' :: '/' :: (netloc ++ '?' :: query)) =
      ⟨scheme, netloc, [], query⟩ := by
  have hsplit := firstSplitChar_append ':' scheme
    ('/' :: '/' :: (netloc ++ '?' :: query)) hs
  have hpred : ∀ c ∈ netloc,
      (fun c => ¬ (c = '/' ∨ c = '?' ∨ c = '#') : Char → Bool) c = true := by
    intro c hc
    have := hnl c hc
    simp [this.1, this.2.1, this.2.2]
  have hq : (fun c => ¬ (c = '/' ∨ c = '?' ∨ c = '#') : Char → Bool) '?' = false := by
    simp
  have htake := takeWhile_middle _ netloc '?' query hpred hq
  have hdropw := dropWhile_middle _ netloc '?' query hpred hq
  simp only [urlparse, hsplit]
  have hsw : startsWithB "//".toList ('/' :: '/' :: (netloc ++ '?' :: query)) = true := by
    simp [startsWithB, String.toList]
  simp only [hsw, if_pos, List.drop, htake, hdropw, firstSplitChar, if_pos]

theorem netlocPassword_shape (user pw host : List Char)
    (hu : ∀ c ∈ user, c ≠ ':') (hh : ∀ c ∈ host, c ≠ '@') :
    netlocPassword (user ++ ':' :: pw ++ '@' :: host) = some pw := by
  have hassoc : user ++ ':' :: pw ++ '@' :: host =
      (user ++ ':' :: pw) ++ '@' :: host := by
    simp [List.append_assoc]
  have hlast := lastSplitChar_append '@' (user ++ ':' :: pw) host hh
  have hfirst := firstSplitChar_append ':' user pw hu
  rw [hassoc]
  simp only [netlocPassword, hlast, hfirst]

theorem mask_password_netloc (scheme user pw host query : List Char)
    (hpw : pw ≠ []) (hq : query ≠ [])
    (hs : ∀ c ∈ scheme, c ≠ ':')
    (hu : ∀ c ∈ user, c ≠ ':' ∧ c ≠ '/' ∧ c ≠ '?' ∧ c ≠ '#')
    (hp : ∀ c ∈ pw, c ≠ '/' ∧ c ≠ '?' ∧ c ≠ '#')
    (hh : ∀ c ∈ host, c ≠ '@' ∧ c ≠ '/' ∧ c ≠ '?' ∧ c ≠ '#') :
    RedisDB._mask_password
      (scheme ++ ':' :: '/' :: '/' :: ((user ++ ':' :: pw ++ '@' :: host) ++ '?' :: query)) =
    scheme ++ ':' :: '/' :: '/' :: ((user ++ ":****@".toList ++ host) ++ '?' :: query) := by
  have hnlchars : ∀ c ∈ user ++ ':' :: pw ++ '@' :: host,
      c ≠ '/' ∧ c ≠ '?' ∧ c ≠ '#' := by
    intro c hc
    have hc5 : c ∈ user ∨ c = ':' ∨ c ∈ pw ∨ c = '@' ∨ c ∈ host := by
      simpa [List.mem_append, List.mem_cons, or_assoc] using hc
    rcases hc5 with hc5 | hc5 | hc5 | hc5 | hc5
    · exact (hu c hc5).2
    · subst hc5; exact ⟨by decide, by decide, by decide⟩
    · exact hp c hc5
    · subst hc5; exact ⟨by decide, by decide, by decide⟩
    · exact (hh c hc5).2
  have hup := urlparse_netloc scheme (user ++ ':' :: pw ++ '@' :: host) query hs hnlchars
  have hnp := netlocPassword_shape user pw host
    (fun c hc => (hu c hc).1) (fun c hc => (hh c hc).1)
  have hshape : user ++ ':' :: pw ++ '@' :: host =
      user ++ (':' :: (pw ++ ['@'])) ++ host := by
    simp [List.append_assoc]
  have hrepl : replaceAll (':' :: pw ++ ['@']) ":****@".toList
      (user ++ ':' :: pw ++ '@' :: host) =
      user ++ ":****@".toList ++ host := by
    rw [replaceAll, hshape]
    exact replaceAllF_exact ':' (pw ++ ['@']) ":****@".toList host '@'
      (by simp) (fun c hc => (hh c hc).1) user
      (user ++ (':' :: (pw ++ ['@'])) ++ host).length le_rfl
      (fun c hc => (hu c hc).1)
  simp only [RedisDB._mask_password, hup, hnp, if_pos hpw, geturl, hrepl]
  simp [hq, List.append_assoc, String.toList]

theorem mask_password_query (pre rest : List Char)
    (hfalsy : netlocPassword (urlparse (pre ++ "password=".toList ++ rest)).netloc = none ∨
        netlocPassword (urlparse (pre ++ "password=".toList ++ rest)).netloc = some [])
    (hfirst : ∀ i : Fin pre.length,
        startsWithB "password=".toList
          ((pre ++ "password=".toList ++ rest).drop i.val) = false) :
    RedisDB._mask_password (pre ++ "password=".toList ++ rest) =
      pre ++ "password=****".toList := by
  have hocc := occursB_append "password=".toList pre rest
  have htb := takeBefore_append "password=".toList rest (by decide) pre hfirst
  rcases hfalsy with h | h
  · simp only [RedisDB._mask_password, h, hocc, htb, if_pos]
  · simp only [RedisDB._mask_password, h, hocc, htb, if_pos]
    simp

/-! # Claim theorems -/

/-- C5, counterexample: on `redis://u:pw@h?password=pw` — a password in both
network-location and query form — masking yields
`redis://u:****@h?password=pw`, which still contains the literal password
`pw`; and on `redis://h?password=pw&ssl=true` masking yields
`redis://h?password=****`, dropping `&ssl=true` rather than preserving the
rest of the string verbatim.  Both refute the claim as stated. -/
theorem c5_counterexample :
    RedisDB._mask_password "redis://u:pw@h?password=pw".toList =
      "redis://u:****@h?password=pw".toList ∧
    occursB "pw".toList
      (RedisDB._mask_password "redis://u:pw@h?password=pw".toList) = true ∧
    RedisDB._mask_password "redis://h?password=pw&ssl=true".toList =
      "redis://h?password=****".toList :=
  ⟨by decide, by decide, by decide⟩

/-- C5, amended: when the connection string carries a non-empty
network-location password, masking replaces the `:password@` occurrence in
the authority with `:****@` and preserves scheme, authority remainder and
query verbatim — in particular a `password=` query value survives unmasked;
when there is no network-location password and `password=` occurs, the
output is the prefix up to the first `password=` followed by the mask token,
and everything after the password value is dropped. -/
theorem c5_mask_password :
    (∀ scheme user pw host query : List Char,
      pw ≠ [] → query ≠ [] →
      (∀ c ∈ scheme, c ≠ ':') →
      (∀ c ∈ user, c ≠ ':' ∧ c ≠ '/' ∧ c ≠ '?' ∧ c ≠ '#') →
      (∀ c ∈ pw, c ≠ '/' ∧ c ≠ '?' ∧ c ≠ '#') →
      (∀ c ∈ host, c ≠ '@' ∧ c ≠ '/' ∧ c ≠ '?' ∧ c ≠ '#') →
      RedisDB._mask_password
        (scheme ++ ':' :: '/' :: '/' ::
          ((user ++ ':' :: pw ++ '@' :: host) ++ '?' :: query)) =
      scheme ++ ':' :: '/' :: '/' ::
        ((user ++ ":****@".toList ++ host) ++ '?' :: query)) ∧
    (∀ pre rest : List Char,
      (netlocPassword (urlparse (pre ++ "password=".toList ++ rest)).netloc = none ∨
        netlocPassword (urlparse (pre ++ "password=".toList ++ rest)).netloc = some []) →
      (∀ i : Fin pre.length,
        startsWithB "password=".toList
          ((pre ++ "password=".toList ++ rest).drop i.val) = false) →
      RedisDB._mask_password (pre ++ "password=".toList ++ rest) =
        pre ++ "password=****".toList) :=
  ⟨fun scheme user pw host query hpw hq hs hu hp hh =>
    mask_password_netloc scheme user pw host query hpw hq hs hu hp hh,
   fun pre rest hfalsy hfirst => mask_password_query pre rest hfalsy hfirst⟩

/-- C5, witness: the amended theorem applied to
`redis://u:secret@h?a=1` (network-location branch) and
`redis+sentinel://s1/m?password=secret123` (query branch). -/
theorem c5_mask_password_witness :
    RedisDB._mask_password
      ("redis".toList ++ ':' :: '/' :: '/' ::
        (("u".toList ++ ':' :: "secret".toList ++ '@' :: "h".toList) ++
          '?' :: "a=1".toList)) =
      "redis".toList ++ ':' :: '/' :: '/' ::
        (("u".toList ++ ":****@".toList ++ "h".toList) ++ '?' :: "a=1".toList) ∧
    RedisDB._mask_password
      ("redis+sentinel://s1/m?".toList ++ "password=".toList ++ "secret123".toList) =
      "redis+sentinel://s1/m?".toList ++ "password=****".toList :=
  ⟨c5_mask_password.1 "redis".toList "u".toList "secret".toList "h".toList
      "a=1".toList (by decide) (by decide) (by decide) (by decide) (by decide)
      (by decide),
   c5_mask_password.2 "redis+sentinel://s1/m?".toList "secret123".toList
      (by decide) (by decide)⟩

/-- C1: every single-key operation (`set`, `set_if_not_exists`, `get`,
`delete`) passes a first-attempt success through untouched; on a
connection-level first failure (`ConnectionError`/`TimeoutError`/`OSError`)
it runs `_reconnect` to completion and retries exactly once, returning the
retry's result — success or failure — unmodified; an application-level first
failure surfaces immediately without reconnection. -/
theorem c1_single_key_retry :
    retryContractFor RedisDB.set ∧
    retryContractFor RedisDB.set_if_not_exists ∧
    retryContractFor RedisDB.get ∧
    retryContractFor RedisDB.delete :=
  ⟨tryWithRetry_contract, tryWithRetry_contract, tryWithRetry_contract,
    tryWithRetry_contract⟩

/-- C1, witness: `get` retried once after a `ConnectionError` returns the
retry's value with the failure invisible; `set` hit by an application-level
error surfaces it with no reconnection; `delete` propagates a failing retry
unmodified. -/
theorem c1_single_key_retry_witness :
    RedisDB.get ⟨.error .connectionError, .ok (), .ok (some "v".toList)⟩ =
      ⟨.ok (some "v".toList), true⟩ ∧
    RedisDB.set ⟨.error .appError, .ok (), .ok ()⟩ = ⟨.error .appError, false⟩ ∧
    RedisDB.delete ⟨.error .timeoutError, .ok (), .error .timeoutError⟩ =
      ⟨.error .timeoutError, true⟩ :=
  ⟨c1_single_key_retry.2.2.1.2.1 _ PyErr.connectionError rfl rfl rfl,
   c1_single_key_retry.1.2.2.1 _ PyErr.appError rfl rfl,
   c1_single_key_retry.2.2.2.2.1 _ PyErr.timeoutError rfl rfl rfl⟩

/-- C4: `set_if_not_exists` on a key already present returns `false` and
leaves the store — hence the readable value — unchanged; on an absent key it
returns `true` and the serialized value becomes readable via `get`. -/
theorem c4_set_if_not_exists :
    (∀ (st : Store) (k : List Char) (v : PModel) (w : List Char),
      redisGet st k = some w →
      set_if_not_exists_on st k v = (st, false) ∧
      redisGet (set_if_not_exists_on st k v).1 k = some w) ∧
    (∀ (st : Store) (k : List Char) (v : PModel),
      redisGet st k = none →
      (set_if_not_exists_on st k v).2 = true ∧
      redisGet (set_if_not_exists_on st k v).1 k = some (_serialize v)) := by
  constructor
  · intro st k v w h
    have h1 := redisGet_setNX_present st k (_serialize v) w h
    refine ⟨?_, ?_⟩
    · simp only [set_if_not_exists_on]
      exact Prod.ext h1.2 h1.1
    · simp only [set_if_not_exists_on, h1.2, h]
  · intro st k v h
    have h1 := redisGet_setNX_absent st k (_serialize v) h
    exact ⟨h1.1, h1.2⟩

/-- C4, witness: on a store holding key `a`, writing `a` again returns
`false` and keeps the old value; writing fresh key `b` returns `true` and
its serialization is then readable. -/
theorem c4_set_if_not_exists_witness :
    (set_if_not_exists_on [("a".toList, "old".toList)] "a".toList ⟨"new".toList⟩ =
      ([("a".toList, "old".toList)], false) ∧
     redisGet (set_if_not_exists_on [("a".toList, "old".toList)] "a".toList
        ⟨"new".toList⟩).1 "a".toList = some "old".toList) ∧
    ((set_if_not_exists_on [("a".toList, "old".toList)] "b".toList
        ⟨"fresh".toList⟩).2 = true ∧
     redisGet (set_if_not_exists_on [("a".toList, "old".toList)] "b".toList
        ⟨"fresh".toList⟩).1 "b".toList = some (_serialize ⟨"fresh".toList⟩)) :=
  ⟨c4_set_if_not_exists.1 [("a".toList, "old".toList)] "a".toList
      ⟨"new".toList⟩ "old".toList (by decide),
   c4_set_if_not_exists.2 [("a".toList, "old".toList)] "b".toList
      ⟨"fresh".toList⟩ (by decide)⟩

/-- C6: parsing the discovery authority substitutes the default Sentinel
port 26379 for every entry without an explicit port; the service name is
the path minus its leading separator, defaulting to `mymaster` when the
path is empty; on the spec's example `redis+sentinel://s1:26379,s2/mygroup`
this yields endpoints `[(s1, 26379), (s2, 26379)]` and group `mygroup`. -/
theorem c6_sentinel_parsing :
    (RedisDB._parse_sentinel_hosts
        (urlparse "redis+sentinel://s1:26379,s2/mygroup".toList).netloc =
      some [("s1".toList, 26379), ("s2".toList, 26379)] ∧
     RedisDB.serviceName
        (urlparse "redis+sentinel://s1:26379,s2/mygroup".toList).path =
      "mygroup".toList) ∧
    (∀ hostPort : List Char, hostPort.contains ':' = false →
      RedisDB.parseHostPort hostPort = some (hostPort, 26379)) ∧
    RedisDB.serviceName [] = "mymaster".toList ∧
    (∀ rest : List Char, rest.head? ≠ some '/' →
      RedisDB.serviceName ('/' :: rest) = rest) := by
  refine ⟨⟨by decide, by decide⟩, ?_, by decide, ?_⟩
  · intro hostPort h
    have h' : ¬ (':' ∈ hostPort) := by simpa using h
    simp [RedisDB.parseHostPort, h']
  · intro rest h
    cases rest with
    | nil => simp [RedisDB.serviceName]
    | cons c t =>
      have hc : ¬ (c = '/') := by
        intro hceq
        exact h (by simp [hceq])
      simp [RedisDB.serviceName, List.dropWhile, hc]

/-- C6, witness: the per-entry parser applied to the portless entry `s2`
yields the default port, and the service name of `/grp` strips exactly the
leading separator. -/
theorem c6_sentinel_parsing_witness :
    RedisDB.parseHostPort "s2".toList = some ("s2".toList, 26379) ∧
    RedisDB.serviceName ('/' :: "grp".toList) = "grp".toList :=
  ⟨c6_sentinel_parsing.2.1 "s2".toList (by decide),
   c6_sentinel_parsing.2.2.2 "grp".toList (by decide)⟩

/-- C7: `_create_ssl_context` maps mode `none` to a context with hostname
checking disabled and `CERT_NONE`; `optional` to `CERT_OPTIONAL`;
`required` — the declared default — to `CERT_REQUIRED`; and loads the CA
bundle into the context exactly when a path is provided. -/
theorem c7_create_ssl_context :
    (∀ ca, (RedisDB._create_ssl_context "none".toList ca).check_hostname = false ∧
      (RedisDB._create_ssl_context "none".toList ca).verify_mode = .CERT_NONE) ∧
    (∀ ca, (RedisDB._create_ssl_context "optional".toList ca).verify_mode =
      .CERT_OPTIONAL ∧
      (RedisDB._create_ssl_context "optional".toList ca).check_hostname = true) ∧
    (∀ ca, (RedisDB._create_ssl_context "required".toList ca).verify_mode =
      .CERT_REQUIRED) ∧
    (∀ mode capath, (RedisDB._create_ssl_context mode (some capath)).loaded_ca =
      some capath) ∧
    (∀ mode, (RedisDB._create_ssl_context mode none).loaded_ca = none) := by
  have hno : ¬ ("optional".toList = "none".toList) := by decide
  have hnr : ¬ ("required".toList = "none".toList) := by decide
  have hor : ¬ ("required".toList = "optional".toList) := by decide
  refine ⟨?_, ?_, ?_, ?_, ?_⟩
  · intro ca
    cases ca <;> simp [RedisDB._create_ssl_context, create_default_context]
  · intro ca
    cases ca <;>
      simp [RedisDB._create_ssl_context, create_default_context, hno]
  · intro ca
    cases ca <;>
      simp [RedisDB._create_ssl_context, create_default_context, hnr, hor]
  · intro mode capath
    simp only [RedisDB._create_ssl_context]
  · intro mode
    simp only [RedisDB._create_ssl_context]
    split
    · rfl
    · split <;> rfl

/-- C2: during a reconnection episode with `n` failed attempts, the delay
slept after failed attempt `k` is `min(k * 2, 10)`; under unlimited failures
the observed sequence is `2, 4, 6, 8, 10, 10, 10, ...`, no delay exceeds
`10`, and the loop has no maximum attempt count: for every `n`, `n` failures
followed by one success still ends the episode successfully. -/
theorem c2_backoff_schedule :
    (∀ (n : Nat) (e : PyErr),
      (RedisDB._reconnect false
        ⟨List.replicate n (Except.error e) ++ [Except.ok ()],
         List.replicate n (Except.ok ())⟩).outcome = .success ∧
      (RedisDB._reconnect false
        ⟨List.replicate n (Except.error e) ++ [Except.ok ()],
         List.replicate n (Except.ok ())⟩).delays =
        (List.range n).map (fun i => ((currentBackoff (i + 1) : Nat) : ℚ)) ∧
      (∀ d ∈ (RedisDB._reconnect false
          ⟨List.replicate n (Except.error e) ++ [Except.ok ()],
           List.replicate n (Except.ok ())⟩).delays, d ≤ 10)) ∧
    (RedisDB._reconnect false
      ⟨List.replicate 7 (Except.error PyErr.connectionError) ++ [Except.ok ()],
       List.replicate 7 (Except.ok ())⟩).delays =
      [2, 4, 6, 8, 10, 10, 10] := by
  have key : ∀ (n : Nat) (e : PyErr),
      reconnectLoop (List.replicate n (Except.error e) ++ [Except.ok ()])
        (List.replicate n (Except.ok ())) 0 =
      (.success,
        (List.range n).map (fun i => ((currentBackoff (i + 1) : Nat) : ℚ)),
        n + 1) := by
    intro n e
    have h := reconnectLoop_errors (List.replicate n e) 0
    simp only [List.map_replicate, List.length_replicate] at h
    simpa using h
  constructor
  · intro n e
    refine ⟨?_, ?_, ?_⟩
    · simp [RedisDB._reconnect, key n e]
    · simp [RedisDB._reconnect, key n e]
    · intro d hd
      simp [RedisDB._reconnect, key n e, List.mem_map, List.mem_range] at hd
      obtain ⟨i, _, hdi⟩ := hd
      rw [← hdi]
      have hle : currentBackoff (i + 1) ≤ 10 := min_le_right _ _
      calc ((currentBackoff (i + 1) : Nat) : ℚ) ≤ ((10 : Nat) : ℚ) := by
            exact_mod_cast hle
        _ = 10 := by norm_num
  · have h7 := key 7 PyErr.connectionError
    simp only [RedisDB._reconnect, h7]
    norm_num [currentBackoff, backoff_interval, max_backoff, List.range_succ]

/-- C8, counterexample: a fatal configuration-class error (`configError`,
e.g. unloadable TLS material) raised by the resolve-and-probe step is not
in the retry-triggering class, yet `_reconnect` catches it, sleeps, retries
— two resolve attempts — and ends the episode successfully instead of
abandoning it and propagating the error to the caller. -/
theorem c8_counterexample :
    isCaughtByRetry .configError = false ∧
    (RedisDB._reconnect false
      ⟨[Except.error PyErr.configError, Except.ok ()],
       [Except.ok ()]⟩).outcome = .success ∧
    (RedisDB._reconnect false
      ⟨[Except.error PyErr.configError, Except.ok ()],
       [Except.ok ()]⟩).resolveAttempts = 2 ∧
    (RedisDB._reconnect false
      ⟨[Except.error PyErr.configError, Except.ok ()],
       [Except.ok ()]⟩).flagAfter = false :=
  ⟨rfl, rfl, rfl, rfl⟩

/-- C8, amended: the inner handler of the reconnection loop catches every
error class raised by the resolve-and-probe step — fatal configuration
errors included — and retries under backoff, so any finite error sequence
followed by a success ends the episode successfully; an error is propagated
(with the episode abandoned and the flag cleared) only when it is raised
outside that step, e.g. by the backoff sleep itself. -/
theorem c8_reconnect_error_policy :
    (∀ es : List PyErr,
      (RedisDB._reconnect false
        ⟨es.map Except.error ++ [Except.ok ()],
         List.replicate es.length (Except.ok ())⟩).outcome = .success ∧
      (RedisDB._reconnect false
        ⟨es.map Except.error ++ [Except.ok ()],
         List.replicate es.length (Except.ok ())⟩).resolveAttempts =
        es.length + 1 ∧
      (RedisDB._reconnect false
        ⟨es.map Except.error ++ [Except.ok ()],
         List.replicate es.length (Except.ok ())⟩).flagAfter = false) ∧
    (∀ (e se : PyErr) (bodyRest sleepRest : List (Except PyErr Unit)),
      (RedisDB._reconnect false
        ⟨Except.error e :: bodyRest, Except.error se :: sleepRest⟩).outcome =
        .raised se ∧
      (RedisDB._reconnect false
        ⟨Except.error e :: bodyRest, Except.error se :: sleepRest⟩).flagAfter =
        false) := by
  constructor
  · intro es
    have h := reconnectLoop_errors es 0
    refine ⟨?_, ?_, ?_⟩ <;> simp [RedisDB._reconnect, h]
  · intro e se bodyRest sleepRest
    exact ⟨rfl, rfl⟩

/-- C10: when `_reconnect` starts an episode (flag initially clear), the
`finally:` clause clears the in-progress flag on every completed exit —
success or raised error — so the instance returns to Idle; the flag stays
set only while the episode is still running; and the deferred path (flag
already set) returns without modifying the flag and performs no resolution
work. -/
theorem c10_reconnect_flag :
    (∀ s : ReconnectScript,
      (RedisDB._reconnect false s).outcome ≠ .running →
      (RedisDB._reconnect false s).flagAfter = false) ∧
    (∀ s : ReconnectScript,
      (RedisDB._reconnect false s).outcome = .running →
      (RedisDB._reconnect false s).flagAfter = true) ∧
    (∀ s : ReconnectScript,
      (RedisDB._reconnect true s).flagAfter = true ∧
      (RedisDB._reconnect true s).resolveAttempts = 0 ∧
      (RedisDB._reconnect true s).delays = [deferredDelay]) := by
  refine ⟨?_, ?_, ?_⟩
  · intro s h
    simp only [RedisDB._reconnect, if_neg, Bool.false_eq_true] at h ⊢
    cases hx : (reconnectLoop s.body s.sleeps 0).1 <;> simp [hx] at h ⊢
  · intro s h
    simp only [RedisDB._reconnect, if_neg, Bool.false_eq_true] at h ⊢
    cases hx : (reconnectLoop s.body s.sleeps 0).1 <;> simp [hx] at h ⊢
  · intro s
    exact ⟨rfl, rfl, rfl⟩

/-- C10, witness: a one-step successful episode exits with the flag
cleared; an episode whose backoff sleep raises also exits with the flag
cleared. -/
theorem c10_reconnect_flag_witness :
    (RedisDB._reconnect false ⟨[Except.ok ()], []⟩).outcome ≠ .running ∧
    (RedisDB._reconnect false ⟨[Except.ok ()], []⟩).flagAfter = false ∧
    (RedisDB._reconnect false
      ⟨[Except.error PyErr.connectionError], [Except.error PyErr.osError]⟩).flagAfter =
      false :=
  ⟨by decide,
   c10_reconnect_flag.1 ⟨[Except.ok ()], []⟩ (by decide),
   c10_reconnect_flag.1
     ⟨[Except.error PyErr.connectionError], [Except.error PyErr.osError]⟩
     (by decide)⟩

/-- C2, witness: one failed attempt then success — the episode succeeds and
the single observed delay is within the cap. -/
theorem c2_backoff_schedule_witness :
    (RedisDB._reconnect false
      ⟨List.replicate 1 (Except.error PyErr.timeoutError) ++ [Except.ok ()],
       List.replicate 1 (Except.ok ())⟩).outcome = .success ∧
    ((currentBackoff 1 : Nat) : ℚ) ≤ 10 := by
  have h := c2_backoff_schedule.1 1 PyErr.timeoutError
  exact ⟨h.1, h.2.2 _ (by rw [h.2.1]; simp)⟩

theorem getKeysLoop_length (ks : List (List Char)) :
    ∀ gs, (getKeysLoop ks gs).1.length + (getKeysLoop ks gs).2.1.length ≤
      gs.length := by
  induction ks with
  | nil => intro gs; simp [getKeysLoop]
  | cons k krest ih =>
    intro gs
    cases gs with
    | nil => simp [getKeysLoop]
    | cons g grest =>
      cases g with
      | error e => simp [getKeysLoop]
      | ok v =>
        have := ih grest
        simp only [getKeysLoop, List.length_cons]
        omega

theorem scanPass_length (scans : List (Except PyErr (Nat × List (List Char)))) :
    ∀ gets cur firstIteration,
      (scanPass scans gets cur firstIteration).1.length ≤ gets.length := by
  induction scans with
  | nil =>
    intro gets cur fi
    unfold scanPass
    split <;> simp
  | cons pg srest ih =>
    intro gets cur fi
    unfold scanPass
    split
    · simp
    · cases pg with
      | error e => simp
      | ok page =>
        obtain ⟨ncur, keys⟩ := page
        have hg := getKeysLoop_length keys gets
        cases hfail : (getKeysLoop keys gets).2.2 with
        | some f =>
          cases f with
          | some e => simp only [hfail]; omega
          | none => simp only [hfail]; omega
        | none =>
          have hrec := ih (getKeysLoop keys gets).2.1 ncur false
          simp only [hfail, List.length_append]
          omega

/-- C9: when the first scan pass fails with a connection-level error,
`scan` runs `_reconnect` and restarts the whole iteration from cursor 0
against the (possibly newly resolved) connection, yielding the first pass's
partial output followed by the restarted pass's output — so values for keys
already emitted may be yielded again (witnessed concretely by a run
yielding the same value twice); whatever way the restarted pass ends —
including an error — is surfaced without a further retry; an
application-level error surfaces with no reconnection; and each invocation
yields only finitely many values, at most one per scripted `get` answer. -/
theorem c9_scan_restart :
    (∀ (s : ScanScript) (e : PyErr),
      (scanPass s.pass1.scans s.pass1.gets 0 true).2 = .errored e →
      isCaughtByRetry e = true → s.reconnect = .ok () →
      RedisDB.scan s =
        ((scanPass s.pass1.scans s.pass1.gets 0 true).1 ++
          (scanPass s.pass2.scans s.pass2.gets 0 true).1,
         (scanPass s.pass2.scans s.pass2.gets 0 true).2, true)) ∧
    (∀ (s : ScanScript) (e : PyErr),
      (scanPass s.pass1.scans s.pass1.gets 0 true).2 = .errored e →
      isCaughtByRetry e = false →
      RedisDB.scan s =
        ((scanPass s.pass1.scans s.pass1.gets 0 true).1, .errored e, false)) ∧
    (∀ s : ScanScript,
      (RedisDB.scan s).1.length ≤ s.pass1.gets.length + s.pass2.gets.length) ∧
    RedisDB.scan
      ⟨⟨[Except.ok (5, ["k".toList]), Except.error PyErr.connectionError],
        [Except.ok "v".toList]⟩,
       Except.ok (),
       ⟨[Except.ok (0, ["k".toList])], [Except.ok "v".toList]⟩⟩ =
      (["v".toList, "v".toList], .completed, true) := by
  refine ⟨?_, ?_, ?_, by decide⟩
  · intro s e h hc hr
    simp [RedisDB.scan, h, hc, hr]
  · intro s e h hc
    simp [RedisDB.scan, h, hc]
  · intro s
    have h1 := scanPass_length s.pass1.scans s.pass1.gets 0 true
    have h2 := scanPass_length s.pass2.scans s.pass2.gets 0 true
    simp only [RedisDB.scan]
    cases hx : (scanPass s.pass1.scans s.pass1.gets 0 true).2 with
    | completed => simp only; omega
    | starved => simp only; omega
    | errored e =>
      cases hce : isCaughtByRetry e with
      | false => simp only [hce]; simp; omega
      | true =>
        cases hrc : s.reconnect with
        | error re => simp only [hce, hrc]; simp; omega
        | ok u => simp only [hce, hrc]; simp; omega

/-- C9, witness: a concrete mid-scan `TimeoutError` leads to one reconnect
and a full restart whose output follows the partial first-pass output; a
concrete mid-scan application-level error surfaces with no reconnect. -/
theorem c9_scan_restart_witness :
    RedisDB.scan
      ⟨⟨[Except.error PyErr.timeoutError], [Except.ok "a".toList]⟩,
       Except.ok (),
       ⟨[Except.ok (0, ["k2".toList])], [Except.ok "b".toList]⟩⟩ =
      ([] ++ ["b".toList], .completed, true) ∧
    RedisDB.scan
      ⟨⟨[Except.error PyErr.appError], [Except.ok "a".toList]⟩,
       Except.ok (),
       ⟨[Except.ok (0, ["k2".toList])], [Except.ok "b".toList]⟩⟩ =
      ([], .errored PyErr.appError, false) :=
  ⟨c9_scan_restart.1
      ⟨⟨[Except.error PyErr.timeoutError], [Except.ok "a".toList]⟩,
       Except.ok (),
       ⟨[Except.ok (0, ["k2".toList])], [Except.ok "b".toList]⟩⟩
      PyErr.timeoutError (by decide) (by decide) rfl,
   c9_scan_restart.2.1
      ⟨⟨[Except.error PyErr.appError], [Except.ok "a".toList]⟩,
       Except.ok (),
       ⟨[Except.ok (0, ["k2".toList])], [Except.ok "b".toList]⟩⟩
      PyErr.appError (by decide) (by decide)⟩

theorem mutexInv_step (s : SysState) (who stay : Bool) (h : MutexInv s) :
    MutexInv (sysNext s who stay) := by
  obtain ⟨flag, n, p1, p2⟩ := s
  cases who <;> cases stay <;> cases p1 <;> cases p2 <;> cases flag <;>
    simp_all [MutexInv, sysNext, taskNext, inCR]

theorem mutexInv_run (choices : List (Bool × Bool)) : MutexInv (sysRun choices) := by
  have aux : ∀ (cs : List (Bool × Bool)) (s : SysState), MutexInv s →
      MutexInv (cs.foldl (fun t c => sysNext t c.1 c.2) s) := by
    intro cs
    induction cs with
    | nil => intro s h; exact h
    | cons c rest ih =>
      intro s h
      exact ih (sysNext s c.1 c.2) (mutexInv_step s c.1 c.2 h)
  exact aux choices sysInit (by constructor <;> rfl)

/-- C3: under every interleaving of two concurrent failure detectors, at
most one task is ever inside the resolve-and-probe critical region, so a
single episode performs the resolution work; a task that reaches the
check while the in-progress flag is set moves straight to the deferred
wait, changing neither the flag nor the resolution counter; the deferred
`_reconnect` call sleeps exactly the fixed `0.1` time-units, performs no
resolution, and returns; and `0.1` is strictly shorter than every delay of
the backoff schedule. -/
theorem c3_single_episode :
    (∀ choices : List (Bool × Bool),
      (inCR (sysRun choices).pc1 && inCR (sysRun choices).pc2) = false) ∧
    (∀ (s : SysState) (stay : Bool), s.reconnecting = true → s.pc1 = .entry →
      sysNext s true stay =
        ⟨s.reconnecting, s.resolveCount, .deferredWait, s.pc2⟩) ∧
    (∀ script : ReconnectScript,
      RedisDB._reconnect true script = ⟨.success, [deferredDelay], 0, true⟩) ∧
    deferredDelay = 1 / 10 ∧
    (∀ a : Nat, 1 ≤ a → deferredDelay < ((currentBackoff a : Nat) : ℚ)) := by
  refine ⟨?_, ?_, ?_, rfl, ?_⟩
  · intro choices
    exact (mutexInv_run choices).2
  · intro s stay hflag hpc
    obtain ⟨flag, n, p1, p2⟩ := s
    simp only at hflag hpc
    subst hflag hpc
    cases stay <;> rfl
  · intro script
    rfl
  · intro a ha
    have h2 : 2 ≤ currentBackoff a := by
      have : 2 ≤ backoff_interval * a := by
        simp only [backoff_interval]
        omega
      exact le_min this (by norm_num [max_backoff])
    have hcast : ((2 : Nat) : ℚ) ≤ ((currentBackoff a : Nat) : ℚ) := by
      exact_mod_cast h2
    have hlt : deferredDelay < ((2 : Nat) : ℚ) := by
      norm_num [deferredDelay]
    exact lt_of_lt_of_le hlt hcast

/-- C3, witness: the mutual-exclusion fact at a concrete two-step schedule
in which the first task has entered the episode and the second then runs
its check; the deferral step applied to the resulting state; and the
deferred delay compared with the first backoff delay. -/
theorem c3_single_episode_witness :
    (inCR (sysRun [(true, false), (false, false)]).pc1 &&
      inCR (sysRun [(true, false), (false, false)]).pc2) = false ∧
    sysNext ⟨true, 0, .entry, .inEpisode⟩ true false =
      ⟨true, 0, .deferredWait, .inEpisode⟩ ∧
    deferredDelay < ((currentBackoff 1 : Nat) : ℚ) :=
  ⟨c3_single_episode.1 [(true, false), (false, false)],
   c3_single_episode.2.1 ⟨true, 0, .entry, .inEpisode⟩ false rfl rfl,
   c3_single_episode.2.2.2.2 1 (by decide)⟩
